import Mathlib

/-!
Shallow embedding of the simpleBackupWithGit backup utility
(src/code/main.py and src/code/github_uploader.py).

Paths and file contents are modelled as lists of characters; the path
separator is a single '/' character.  Python's substring test
(the `in` operator on strings) becomes list-infix, `str.lower` becomes
a character-wise lowercasing map, and `str.strip` drops whitespace from
both ends.  Fallible OS calls are modelled by `Option`-valued fields of
the file records fed to the functions.
-/

namespace Backup

/-- The path separator used throughout the embedding. -/
def sep : Char := '/'

/-- Python str.lower, character-wise. -/
def pyLower (s : List Char) : List Char := s.map Char.toLower

/-- Python str.strip(): drop whitespace from both ends. -/
def pyStrip (s : List Char) : List Char :=
  ((s.dropWhile Char.isWhitespace).reverse.dropWhile Char.isWhitespace).reverse

/-- Python str.lstrip("."): drop every leading dot. -/
def lstripDots (s : List Char) : List Char := s.dropWhile (· = '.')

/-- Python `sub in s`: substring containment, as list infix. -/
def pyContains (s sub : List Char) : Bool := decide (sub <:+: s)

/-- os.path.join of two components with a single separator. -/
def pathJoin (a b : List Char) : List Char := a ++ sep :: b

/-- os.path.basename: the part after the last separator. -/
def basename (p : List Char) : List Char :=
  (p.reverse.takeWhile (· ≠ sep)).reverse

/-- The extension part of os.path.splitext applied to a basename:
the suffix starting at the last dot, unless every character before that
dot is itself a dot (then there is no extension). -/
def splitextExtAux : List Char → List Char
  | [] => []
  | c :: cs => if '.' ∈ cs then splitextExtAux cs else if c = '.' then c :: cs else []

/-- os.path.splitext(p)[1]: extension of the basename, with Python's
leading-dot rule (dots that start the basename never begin an extension). -/
def splitextExt (p : List Char) : List Char :=
  splitextExtAux (lstripDots (basename p))

/-- SUPPORTED_EXTENSIONS from src/code/main.py. -/
def SUPPORTED_EXTENSIONS : List (List Char) :=
  [".txt".data, ".docx".data, ".doc".data, ".pptx".data, ".ppt".data, ".md".data,
   ".pdf".data, ".xlsx".data, ".xls".data, ".csv".data, ".json".data, ".xml".data]

/-- SIZE_LIMIT from src/code/main.py: 25 * 1024 * 1024 bytes. -/
def SIZE_LIMIT : Int := 25 * 1024 * 1024

/-- get_file_extension from src/code/main.py: lowercased splitext extension. -/
def get_file_extension (p : List Char) : List Char := pyLower (splitextExt p)

/-- is_supported_file from src/code/main.py. -/
def is_supported_file (p : List Char) : Bool :=
  SUPPORTED_EXTENSIONS.contains (get_file_extension p)

/-- is_path_excluded from src/code/main.py: some pattern occurs as a
substring of the lowercased path. -/
def is_path_excluded (file_path : List Char) (excluded_paths : List (List Char)) : Bool :=
  excluded_paths.any (fun excluded => pyContains (pyLower file_path) excluded)

/-- load_exclude_paths from src/code/main.py.  The file is modelled as
an optional list of lines (none = file does not exist); each kept line
is stripped, non-empty, does not start with '#', and is lowercased.
The Python set is modelled as the list of added elements. -/
def load_exclude_paths (file : Option (List (List Char))) : List (List Char) :=
  match file with
  | none => []
  | some lines =>
      (lines.map pyStrip).filterMap (fun l =>
        if l ≠ [] ∧ l.head? ≠ some '#' then some (pyLower l) else none)

/-- A calendar date, the part of a datetime.fromtimestamp result that
create_backup_hierarchy consumes (%Y, %m and isocalendar only look at
year, month and day). -/
structure Date where
  year : Nat
  month : Nat
  day : Nat
deriving DecidableEq, Repr

/-- Gregorian leap-year test. -/
def isLeap (y : Nat) : Bool := y % 4 = 0 && (y % 100 ≠ 0 || y % 400 = 0)

/-- Days in the months before month m (1-based) of year y. -/
def daysBeforeMonth (y m : Nat) : Nat :=
  let cum := [0, 31, 59, 90, 120, 151, 181, 212, 243, 273, 304, 334]
  (cum.getD (m - 1) 0) + (if isLeap y ∧ 3 ≤ m then 1 else 0)

/-- Ordinal day of the year (1 = January 1st). -/
def ordinalDay (d : Date) : Nat := daysBeforeMonth d.year d.month + d.day

/-- Days since 1970-01-01 of a civil date (days-from-civil algorithm).
Negative for dates before the epoch. -/
def daysFromCivil (d : Date) : Int :=
  let y : Nat := if d.month ≤ 2 then d.year - 1 else d.year
  let era : Nat := y / 400
  let yoe : Nat := y % 400
  let doy : Nat := (153 * (if 2 < d.month then d.month - 3 else d.month + 9) + 2) / 5 + d.day - 1
  let doe : Nat := yoe * 365 + yoe / 4 - yoe / 100 + doy
  (era : Int) * 146097 + (doe : Int) - 719468

/-- ISO weekday: 1 = Monday .. 7 = Sunday (1970-01-01 was a Thursday). -/
def isoWeekday (d : Date) : Nat := ((daysFromCivil d + 3).emod 7).toNat + 1

/-- Number of ISO weeks in year y (52 or 53). -/
def isoWeeksInYear (y : Nat) : Nat :=
  let p : Nat → Nat := fun n => (n + n / 4 - n / 100 + n / 400) % 7
  if p y = 4 ∨ p (y - 1) = 3 then 53 else 52

/-- The ISO-8601 week number of a date, as computed by
datetime.isocalendar()[1]. -/
def isoWeek (d : Date) : Nat :=
  let w : Nat := (ordinalDay d + 10 - isoWeekday d) / 7
  if w < 1 then isoWeeksInYear (d.year - 1)
  else if isoWeeksInYear d.year < w then 1
  else w

/-- get_week_number from src/code/main.py: date.isocalendar()[1]. -/
def get_week_number (d : Date) : Nat := isoWeek d

/-- Zero-pad the decimal representation of n to width w
(Python format {:02d} / strftime %m, %Y). -/
def padNum (w n : Nat) : List Char :=
  let s := (Nat.repr n).data
  List.replicate (w - s.length) '0' ++ s

/-- Round-half-to-even of a rational to an integer (the rounding used by
Python's round builtin). -/
def roundHalfEven (q : ℚ) : ℤ :=
  let f : ℤ := ⌊q⌋
  let r : ℚ := q - f
  if r < 1/2 then f
  else if 1/2 < r then f + 1
  else if Even f then f else f + 1

/-- Python round(x, 2): round to two decimal places, half to even. -/
def round2 (q : ℚ) : ℚ := (roundHalfEven (q * 100) : ℚ) / 100

/-- One entry of the excluded_size_files list built by
create_backup_hierarchy (the dict with keys file / size_mb / destination). -/
structure Entry where
  file : List Char
  size_mb : ℚ
  destination : List Char
deriving DecidableEq, Repr

/-- The fixed destination note stored in each exclusion entry. -/
def placementNote : List Char := "Would be placed in year/month/week hierarchy".data

/-- A source file as the backup loop sees it: its path plus the outcomes
of the OS calls made on it.  size none models os.path.getsize raising
(get_file_size then returns -1); ctime none models os.path.getctime
raising; mkdirOk / copyOk model os.makedirs and shutil.copy2 succeeding. -/
structure FileInfo where
  path : List Char
  size : Option Nat
  ctime : Option Date
  mkdirOk : Bool
  copyOk : Bool
deriving DecidableEq, Repr

/-- get_file_size from src/code/main.py: the size in bytes, or -1 when
os.path.getsize raises. -/
def get_file_size (f : FileInfo) : Int :=
  match f.size with
  | some n => (n : Int)
  | none => -1

/-- create_backup_hierarchy from src/code/main.py.  Returns the optional
destination path together with the (possibly extended) exclusion list.
A None ctime or a failing makedirs lands in the except branch, which
returns None without touching the exclusion list. -/
def create_backup_hierarchy (backup_root : List Char) (f : FileInfo)
    (excluded_size_files : List Entry) : Option (List Char) × List Entry :=
  let file_size := get_file_size f
  if SIZE_LIMIT < file_size then
    (none, excluded_size_files ++
      [{ file := f.path,
         size_mb := round2 ((file_size : ℚ) / (1024 * 1024)),
         destination := placementNote }])
  else
    match f.ctime with
    | none => (none, excluded_size_files)
    | some file_date =>
        let year_folder := padNum 4 file_date.year
        let month_folder := padNum 2 file_date.month
        let week_folder := 'W' :: padNum 2 (get_week_number file_date)
        let file_extension := lstripDots (get_file_extension f.path)
        let dest_dir := pathJoin (pathJoin (pathJoin (pathJoin backup_root
          year_folder) month_folder) week_folder) file_extension
        if f.mkdirOk then
          (some (pathJoin dest_dir (basename f.path)), excluded_size_files)
        else
          (none, excluded_size_files)

/-- A directory tree as os.walk sees it: the files directly in the
directory and the named subdirectories. -/
inductive FSTree where
  | node (files : List (List Char)) (subdirs : List (List Char × FSTree))

/-- All file paths in the tree rooted at the directory named root,
with no filtering: what a run of os.walk without pruning reaches. -/
def allFilePaths (root : List Char) : FSTree → List (List Char)
  | .node files subdirs =>
      files.map (pathJoin root) ++
      (subdirs.attach.map (fun st =>
        allFilePaths (pathJoin root st.1.1) st.1.2)).flatten
termination_by t => sizeOf t
decreasing_by
  simp only [FSTree.node.sizeOf_spec]
  have h1 : sizeOf st.1 < sizeOf subdirs := List.sizeOf_lt_of_mem st.2
  have h2 : sizeOf st.1.2 < sizeOf st.1 := by
    obtain ⟨a, b⟩ := st.1
    simp only [Prod.mk.sizeOf_spec]
    omega
  omega

/-- find_all_files from src/code/main.py, over the tree model: os.walk
with the in-place pruning of excluded directories, keeping the files
whose path is not excluded and whose extension is supported. -/
def find_all_files (excluded_paths : List (List Char)) (root : List Char) :
    FSTree → List (List Char)
  | .node files subdirs =>
      (files.map (pathJoin root)).filter (fun fp =>
        !is_path_excluded fp excluded_paths && is_supported_file fp) ++
      (subdirs.attach.map (fun st =>
        if is_path_excluded (pathJoin root st.1.1) excluded_paths then []
        else find_all_files excluded_paths (pathJoin root st.1.1) st.1.2)).flatten
termination_by t => sizeOf t
decreasing_by
  simp only [FSTree.node.sizeOf_spec]
  have h1 : sizeOf st.1 < sizeOf subdirs := List.sizeOf_lt_of_mem st.2
  have h2 : sizeOf st.1.2 < sizeOf st.1 := by
    obtain ⟨a, b⟩ := st.1
    simp only [Prod.mk.sizeOf_spec]
    omega
  omega

/-- A simple textual rendering of a rational, standing in for Python's
float formatting of size_mb in the log (numerator, and denominator when
it is not 1). -/
def renderQ (q : ℚ) : List Char :=
  (Int.repr q.num).data ++ (if q.den = 1 then [] else '/' :: (Nat.repr q.den).data)

/-- A line of 80 equal signs. -/
def eq80 : List Char := List.replicate 80 '='

/-- The per-entry block written by log_excluded_files for entry number
idx (three text lines and the blank line after them). -/
def entryBlock (idx : Nat) (e : Entry) : List (List Char) :=
  [(Nat.repr idx).data ++ ". File: ".data ++ e.file,
   "   Size: ".data ++ renderQ e.size_mb ++ " MB".data,
   "   Would be located: Backup folder structure would apply".data,
   []]

/-- The enumerate(excluded_files, 1) loop of log_excluded_files: the
blocks for the entries, numbered from idx upward. -/
def numberedBlocks (idx : Nat) : List Entry → List (List Char)
  | [] => []
  | e :: es => entryBlock idx e ++ numberedBlocks (idx + 1) es

/-- log_excluded_files from src/code/main.py, as the list of lines the
function writes (the file is opened in "w" mode, so this is the whole
log content; ts is the datetime.now timestamp text). -/
def log_excluded_files (excluded_files : List Entry) (ts : List Char) :
    List (List Char) :=
  [eq80,
   "BACKUP EXCLUDED FILES LOG - ".data ++ ts,
   eq80,
   [],
   "The following files were EXCLUDED from backup due to exceeding 25MB size limit:".data,
   []] ++
  (if excluded_files.isEmpty then
    ["No files were excluded.".data]
  else
    ("Total excluded files: ".data ++ (Nat.repr excluded_files.length).data) :: [] ::
      numberedBlocks 1 excluded_files) ++
  [eq80,
   "To fix this, consider using git-lfs (Large File Storage) or exclude these files in config.".data]

/-- Recognizes the first line of a numbered per-entry block in the
exclusion log: a line containing the ". File: " marker. -/
def isEntryLine (l : List Char) : Bool := pyContains l ". File: ".data

/-- The body of the backup loop in main (src/code/main.py lines 232-241):
compute the destination, and copy when a destination came back and the
copy call does not raise.  The accumulator is the list of performed
copies (source, destination) and the excluded_size_files list. -/
def processFile (backup_root : List Char)
    (acc : List (List Char × List Char) × List Entry) (f : FileInfo) :
    List (List Char × List Char) × List Entry :=
  let r := create_backup_hierarchy backup_root f acc.2
  match r.1 with
  | some dest => if f.copyOk then (acc.1 ++ [(f.path, dest)], r.2) else (acc.1, r.2)
  | none => (acc.1, r.2)

/-- The backup loop of main over the discovered files, starting from an
empty copies list and an empty exclusion report. -/
def backupLoop (backup_root : List Char) (files : List FileInfo) :
    List (List Char × List Char) × List Entry :=
  files.foldl (processFile backup_root) ([], [])

/-- A file has no I/O error for the purposes of the backup loop: its
size and ctime are readable, and makedirs and copy2 succeed on it. -/
def noIOError (f : FileInfo) : Prop :=
  f.size.isSome ∧ f.ctime.isSome ∧ f.mkdirOk = true ∧ f.copyOk = true

/-- The git commands commit_and_push and initialize_git_repo run
(src/code/github_uploader.py). -/
inductive GitCmd where
  | init
  | remoteAdd (url : List Char)
  | configEmail
  | configName
  | add
  | status
  | commit (msg : List Char)
  | push
deriving DecidableEq, Repr

/-- Outcomes of the subprocess and OS calls commit_and_push and
initialize_git_repo depend on: whether each git command exits zero, and
the stdout of git status --porcelain. -/
structure GitEnv where
  initOk : Bool
  remoteAddOk : Bool
  configEmailOk : Bool
  configNameOk : Bool
  addOk : Bool
  statusOut : List Char
  commitOk : Bool
  pushOk : Bool
deriving DecidableEq, Repr

/-- commit_and_push from src/code/github_uploader.py: the returned
boolean together with the sequence of git commands issued.  A failing
check=True command raises, the exception handler returns False; the
status command is run without check and its stripped stdout decides
whether commit and push happen at all. -/
def commit_and_push (env : GitEnv) (commit_message : List Char) :
    Bool × List GitCmd :=
  if !env.configEmailOk then (false, [GitCmd.configEmail])
  else if !env.configNameOk then (false, [GitCmd.configEmail, GitCmd.configName])
  else if !env.addOk then (false, [GitCmd.configEmail, GitCmd.configName, GitCmd.add])
  else
    let t := [GitCmd.configEmail, GitCmd.configName, GitCmd.add, GitCmd.status]
    if pyStrip env.statusOut = [] then (true, t)
    else if !env.commitOk then (false, t ++ [GitCmd.commit commit_message])
    else if !env.pushOk then
      (false, t ++ [GitCmd.commit commit_message, GitCmd.push])
    else (true, t ++ [GitCmd.commit commit_message, GitCmd.push])

/-- The configuration dictionary load_config builds, restricted to the
three keys the uploader reads.  url / ssh are None until a config line
sets them; msg has the documented default. -/
structure Config where
  url : Option (List Char)
  ssh : Option (List Char)
  msg : List Char
deriving DecidableEq, Repr

/-- Python truthiness test on an optional string: None and the empty
string are falsy. -/
def pyFalsy (o : Option (List Char)) : Bool :=
  match o with
  | none => true
  | some s => s.isEmpty

/-- Apply one config line to the configuration, as the loop body of
load_config does: strip, skip blanks and comments, split at the first
equals sign, strip key and value, store. -/
def applyConfigLine (c : Config) (line : List Char) : Config :=
  let l := pyStrip line
  if l ≠ [] ∧ l.head? ≠ some '#' ∧ '=' ∈ l then
    let key := pyStrip (l.takeWhile (· ≠ '='))
    let value := pyStrip ((l.dropWhile (· ≠ '=')).tail)
    if key = "GITHUB_REPO_URL".data then { c with url := some value }
    else if key = "SSH_KEY_PATH".data then { c with ssh := some value }
    else if key = "COMMIT_MESSAGE".data then { c with msg := value }
    else c
  else c

/-- load_config from src/code/github_uploader.py over an optional list
of config-file lines (none = file does not exist, which keeps the
defaults). -/
def load_config (file : Option (List (List Char))) : Config :=
  let dflt : Config := ⟨none, none, "Auto backup - {date}".data⟩
  match file with
  | none => dflt
  | some lines => lines.foldl applyConfigLine dflt

/-- COMMIT_MESSAGE.format: substitute every occurrence of the
brace-delimited date token (the characters \x7bdate\x7d). -/
def formatDate (template date : List Char) : List Char :=
  match template with
  | [] => []
  | c :: cs =>
      if ('{' :: 'd' :: 'a' :: 't' :: 'e' :: '}' :: []) <+: (c :: cs) then
        date ++ formatDate (cs.drop 5) date
      else c :: formatDate cs date
termination_by template.length
decreasing_by
  all_goals simp [List.length_drop]
  omega

/-- Externally visible side effects of upload_backup_to_github: the
chmod on the key, the GIT_SSH_COMMAND environment mutation, the
makedirs of the backup path, and each git invocation. -/
inductive Effect where
  | chmod (path : List Char)
  | setSshEnv (value : List Char)
  | makedirs (path : List Char)
  | git (cmd : GitCmd)
deriving DecidableEq, Repr

/-- Outcomes of all OS calls upload_backup_to_github depends on. -/
structure UploadEnv where
  sshKeyExists : Bool
  chmodOk : Bool
  gitDirExists : Bool
  makedirsOk : Bool
  git : GitEnv
deriving DecidableEq, Repr

/-- setup_ssh_environment from src/code/github_uploader.py (on a
non-Windows host): missing key returns False with no effect; otherwise
chmod the key and set GIT_SSH_COMMAND. -/
def setup_ssh_environment (env : UploadEnv) (ssh_key_path : List Char) :
    Bool × List Effect :=
  if !env.sshKeyExists then (false, [])
  else if !env.chmodOk then (false, [Effect.chmod ssh_key_path])
  else (true,
    [Effect.chmod ssh_key_path,
     Effect.setSshEnv ("ssh -i \"".data ++ ssh_key_path ++ ['"'])])

/-- initialize_git_repo from src/code/github_uploader.py: reuse an
existing repository, else create the directory, git init, and register
the remote. -/
def initialize_git_repo (env : UploadEnv) (repo_path repo_url : List Char) :
    Bool × List Effect :=
  if env.gitDirExists then (true, [])
  else if !env.makedirsOk then (false, [Effect.makedirs repo_path])
  else if !env.git.initOk then (false, [Effect.makedirs repo_path, Effect.git GitCmd.init])
  else if !env.git.remoteAddOk then
    (false, [Effect.makedirs repo_path, Effect.git GitCmd.init,
             Effect.git (GitCmd.remoteAdd repo_url)])
  else (true, [Effect.makedirs repo_path, Effect.git GitCmd.init,
               Effect.git (GitCmd.remoteAdd repo_url)])

/-- upload_backup_to_github from src/code/github_uploader.py, given the
already-loaded configuration and the formatted current date text:
returns the boolean result and the trace of side effects performed. -/
def upload_backup_to_github (env : UploadEnv) (cfg : Config)
    (backup_path now : List Char) : Bool × List Effect :=
  if pyFalsy cfg.url then (false, [])
  else if pyFalsy cfg.ssh then (false, [])
  else
    let s := setup_ssh_environment env (cfg.ssh.getD [])
    if !s.1 then (false, s.2)
    else
      let r := initialize_git_repo env backup_path (cfg.url.getD [])
      if !r.1 then (false, s.2 ++ r.2)
      else
        let commit_message := formatDate cfg.msg now
        let c := commit_and_push env.git commit_message
        (c.1, s.2 ++ r.2 ++ c.2.map Effect.git)

lemma cbh_snd_cases (root : List Char) (f : FileInfo) (excl : List Entry) :
    (create_backup_hierarchy root f excl).2 = excl ∨
    (create_backup_hierarchy root f excl).2 = excl ++
      [Entry.mk f.path (round2 ((get_file_size f : ℚ) / (1024 * 1024))) placementNote] := by
  rw [create_backup_hierarchy]
  by_cases hlt : SIZE_LIMIT < get_file_size f
  · rw [if_pos hlt]
    right
    rfl
  · rw [if_neg hlt]
    cases f.ctime with
    | none => left; rfl
    | some d =>
        by_cases hm : f.mkdirOk = true
        · left; simp [hm]
        · left; simp [hm]

lemma processFile_snd (root : List Char)
    (acc : List (List Char × List Char) × List Entry) (f : FileInfo) :
    (processFile root acc f).2 = (create_backup_hierarchy root f acc.2).2 := by
  rw [processFile]
  cases hr : (create_backup_hierarchy root f acc.2).1 with
  | none => rfl
  | some d => by_cases hcp : f.copyOk = true <;> simp [hcp]

lemma processFile_cnt_other (root : List Char)
    (acc : List (List Char × List Char) × List Entry) (f : FileInfo)
    (p : List Char) (hp : f.path ≠ p) :
    (processFile root acc f).1.countP (fun c => decide (c.1 = p)) =
      acc.1.countP (fun c => decide (c.1 = p)) ∧
    (processFile root acc f).2.countP (fun e => decide (e.file = p)) =
      acc.2.countP (fun e => decide (e.file = p)) := by
  constructor
  · rw [processFile]
    cases hr : (create_backup_hierarchy root f acc.2).1 with
    | none => rfl
    | some d =>
        by_cases hcp : f.copyOk = true
        · simp [hcp, List.countP_append, hp]
        · simp [hcp]
  · rw [processFile_snd]
    rcases cbh_snd_cases root f acc.2 with h2 | h2
    · rw [h2]
    · rw [h2, List.countP_append]
      simp [hp]

lemma processFile_cnt_self (root : List Char)
    (acc : List (List Char × List Char) × List Entry) (f : FileInfo)
    (hio : noIOError f) :
    (processFile root acc f).1.countP (fun c => decide (c.1 = f.path)) =
      acc.1.countP (fun c => decide (c.1 = f.path)) +
        (if SIZE_LIMIT < get_file_size f then 0 else 1) ∧
    (processFile root acc f).2.countP (fun e => decide (e.file = f.path)) =
      acc.2.countP (fun e => decide (e.file = f.path)) +
        (if SIZE_LIMIT < get_file_size f then 1 else 0) := by
  obtain ⟨hsz, hct, hm, hcp⟩ := hio
  rcases Option.isSome_iff_exists.mp hct with ⟨d, hd⟩
  by_cases hlt : SIZE_LIMIT < get_file_size f
  · have hcbh : create_backup_hierarchy root f acc.2 = (none, acc.2 ++
        [Entry.mk f.path (round2 ((get_file_size f : ℚ) / (1024 * 1024))) placementNote]) := by
      rw [create_backup_hierarchy, if_pos hlt]
    rw [processFile, hcbh]
    simp [hlt, List.countP_append]
  · have hcbh : (create_backup_hierarchy root f acc.2).1.isSome = true ∧
        (create_backup_hierarchy root f acc.2).2 = acc.2 := by
      rw [create_backup_hierarchy, if_neg hlt, hd]
      simp [hm]
    rcases Option.isSome_iff_exists.mp hcbh.1 with ⟨dest, hdest⟩
    rw [processFile, hdest]
    simp [hcp, hlt, List.countP_append, hcbh.2]

lemma foldl_cnt_not_mem (root : List Char) (files : List FileInfo)
    (acc : List (List Char × List Char) × List Entry) (p : List Char)
    (hp : ∀ g ∈ files, g.path ≠ p) :
    (files.foldl (processFile root) acc).1.countP (fun c => decide (c.1 = p)) =
      acc.1.countP (fun c => decide (c.1 = p)) ∧
    (files.foldl (processFile root) acc).2.countP (fun e => decide (e.file = p)) =
      acc.2.countP (fun e => decide (e.file = p)) := by
  induction files generalizing acc with
  | nil => exact ⟨rfl, rfl⟩
  | cons g gs ih =>
      have h1 := processFile_cnt_other root acc g p (hp g (by simp))
      have h2 := ih (processFile root acc g) (fun x hx => hp x (by simp [hx]))
      simp only [List.foldl_cons]
      exact ⟨h2.1.trans h1.1, h2.2.trans h1.2⟩

lemma foldl_cnt_mem (root : List Char) (files : List FileInfo)
    (acc : List (List Char × List Char) × List Entry) (f : FileInfo)
    (hf : f ∈ files) (hnd : (files.map FileInfo.path).Nodup)
    (hio : ∀ g ∈ files, noIOError g) :
    (files.foldl (processFile root) acc).1.countP (fun c => decide (c.1 = f.path)) =
      acc.1.countP (fun c => decide (c.1 = f.path)) +
        (if SIZE_LIMIT < get_file_size f then 0 else 1) ∧
    (files.foldl (processFile root) acc).2.countP (fun e => decide (e.file = f.path)) =
      acc.2.countP (fun e => decide (e.file = f.path)) +
        (if SIZE_LIMIT < get_file_size f then 1 else 0) := by
  induction files generalizing acc with
  | nil => cases hf
  | cons g gs ih =>
      simp only [List.map_cons, List.nodup_cons] at hnd
      simp only [List.foldl_cons]
      rcases List.mem_cons.mp hf with rfl | hfin
      · have hni : ∀ x ∈ gs, x.path ≠ f.path := by
          intro x hx hcontra
          exact hnd.1 (hcontra ▸ List.mem_map_of_mem FileInfo.path hx)
        have hstep := processFile_cnt_self root acc f (hio f (by simp))
        have hstable := foldl_cnt_not_mem root gs (processFile root acc f) f.path hni
        exact ⟨hstable.1.trans hstep.1, hstable.2.trans hstep.2⟩
      · have hne : g.path ≠ f.path := by
          intro hcontra
          exact hnd.1 (hcontra ▸ List.mem_map_of_mem FileInfo.path hfin)
        have hother := processFile_cnt_other root acc g f.path hne
        have hrec := ih (processFile root acc g) hfin hnd.2
          (fun x hx => hio x (by simp [hx]))
        rw [hother.1] at hrec
        rw [hother.2] at hrec
        exact hrec

/-- C3: in a run of the backup loop with no I/O errors and distinct
file paths, every discovered file is either copied to exactly one
destination and absent from the exclusion report, or not copied and
present exactly once in the exclusion report. -/
theorem backup_loop_invariant (root : List Char) (files : List FileInfo)
    (hnd : (files.map FileInfo.path).Nodup)
    (hio : ∀ g ∈ files, noIOError g) (f : FileInfo) (hf : f ∈ files) :
    ((backupLoop root files).1.countP (fun c => decide (c.1 = f.path)) = 1 ∧
     (backupLoop root files).2.countP (fun e => decide (e.file = f.path)) = 0) ∨
    ((backupLoop root files).1.countP (fun c => decide (c.1 = f.path)) = 0 ∧
     (backupLoop root files).2.countP (fun e => decide (e.file = f.path)) = 1) := by
  have h := foldl_cnt_mem root files ([], []) f hf hnd hio
  simp only [List.countP_nil, Nat.zero_add] at h
  rw [backupLoop]
  by_cases hlt : SIZE_LIMIT < get_file_size f
  · right
    constructor
    · rw [h.1, if_pos hlt]
    · rw [h.2, if_pos hlt]
  · left
    constructor
    · rw [h.1, if_neg hlt]
    · rw [h.2, if_neg hlt]

end Backup

-- Sanity checks on the string primitives (kept as compiled examples).
example : Backup.splitextExt "dir/notes.md".data = ".md".data := by decide
example : Backup.splitextExt "dir.d/noext".data = [] := by decide
example : Backup.splitextExt "a/.bashrc".data = [] := by decide
example : Backup.splitextExt "a/..txt".data = [] := by decide
example : Backup.splitextExt "a/b..txt".data = ".txt".data := by decide
example : Backup.basename "a/b/c.txt".data = "c.txt".data := by decide
example : Backup.is_supported_file "X/Report.PDF".data = true := by decide
example : Backup.is_path_excluded "a/Node_Modules/x.md".data ["node_modules".data] = true := by
  decide

namespace Backup

/-- C8: load_exclude_paths returns the set of the file's lines after
whitespace-trimming and lowercasing, ignoring blank lines and lines
starting with '#'; a missing file yields the empty set. -/
theorem load_exclude_paths_spec (p : List Char) (lines : List (List Char)) :
    load_exclude_paths none = [] ∧
    (p ∈ load_exclude_paths (some lines) ↔
      ∃ l ∈ lines, pyStrip l ≠ [] ∧ (pyStrip l).head? ≠ some '#' ∧
        p = pyLower (pyStrip l)) := by
  refine ⟨rfl, ?_⟩
  simp only [load_exclude_paths]
  constructor
  · intro hp
    obtain ⟨a, ha, hg⟩ := List.mem_filterMap.mp hp
    obtain ⟨l, hl, rfl⟩ := List.mem_map.mp ha
    by_cases hc : pyStrip l ≠ [] ∧ (pyStrip l).head? ≠ some '#'
    · rw [if_pos hc] at hg
      exact ⟨l, hl, hc.1, hc.2, (Option.some.injEq _ _ ▸ hg).symm⟩
    · rw [if_neg hc] at hg
      cases hg
  · rintro ⟨l, hl, h1, h2, rfl⟩
    refine List.mem_filterMap.mpr ⟨pyStrip l, List.mem_map_of_mem _ hl, ?_⟩
    rw [if_pos ⟨h1, h2⟩]

/-- C9: exclusion matching has the empty pattern set as identity and is
monotone: adding patterns never un-excludes a path. -/
theorem is_path_excluded_monotone (p : List Char) (S T : List (List Char))
    (hST : S ⊆ T) :
    is_path_excluded p [] = false ∧
    (is_path_excluded p S = true → is_path_excluded p T = true) := by
  refine ⟨rfl, fun h => ?_⟩
  simp only [is_path_excluded, List.any_eq_true] at h ⊢
  obtain ⟨x, hx, hpx⟩ := h
  exact ⟨x, hST hx, hpx⟩

theorem is_path_excluded_monotone_witness :
    is_path_excluded "xAx".data [] = false ∧
    (is_path_excluded "xAx".data ["a".data] = true →
      is_path_excluded "xAx".data ["a".data, "b".data] = true) :=
  is_path_excluded_monotone "xAx".data ["a".data] ["a".data, "b".data]
    (by intro a ha; simp only [List.mem_singleton] at ha; simp [ha])

/-- C1: a file strictly larger than 26214400 bytes gets no destination,
is never copied, and exactly one exclusion entry carrying its path and
its size in MB rounded to two decimals is appended; a file of at most
26214400 bytes is not size-excluded. -/
theorem create_backup_hierarchy_size_limit (root : List Char) (f : FileInfo)
    (cs : List (List Char × List Char)) (excl : List Entry) (s : Nat)
    (hs : f.size = some s) :
    (26214400 < s →
      create_backup_hierarchy root f excl =
        (none, excl ++ [Entry.mk f.path
          (round2 ((s : ℚ) / (1024 * 1024))) placementNote]) ∧
      (processFile root (cs, excl) f).1 = cs) ∧
    (s ≤ 26214400 → (create_backup_hierarchy root f excl).2 = excl) := by
  have hgfs : get_file_size f = (s : Int) := by simp [get_file_size, hs]
  constructor
  · intro hlt
    have hlt2 : SIZE_LIMIT < (s : Int) := by
      rw [SIZE_LIMIT]
      exact_mod_cast hlt
    have hcbh : create_backup_hierarchy root f excl =
        (none, excl ++ [Entry.mk f.path
          (round2 ((s : ℚ) / (1024 * 1024))) placementNote]) := by
      simp [create_backup_hierarchy, hgfs, hlt2]
    refine ⟨hcbh, ?_⟩
    simp [processFile, hcbh]
  · intro hle
    have hle' : ¬ SIZE_LIMIT < get_file_size f := by
      rw [hgfs, SIZE_LIMIT]
      exact_mod_cast not_lt.mpr hle
    rw [create_backup_hierarchy]
    rw [if_neg hle']
    cases f.ctime with
    | none => rfl
    | some d =>
        by_cases hm : f.mkdirOk = true <;> simp [hm]

theorem create_backup_hierarchy_size_limit_witness :
    (create_backup_hierarchy "r".data
      ⟨"a/big.pdf".data, some 26214401, none, true, true⟩ []).2.length = 1 ∧
    (create_backup_hierarchy "r".data
      ⟨"a/ok.pdf".data, some 26214400, none, true, true⟩ []).2 = [] := by
  constructor
  · have h := create_backup_hierarchy_size_limit "r".data
      ⟨"a/big.pdf".data, some 26214401, none, true, true⟩ [] [] 26214401 rfl
    rw [(h.1 (by norm_num)).1]
    rfl
  · exact (create_backup_hierarchy_size_limit "r".data
      ⟨"a/ok.pdf".data, some 26214400, none, true, true⟩ [] [] 26214400 rfl).2
      (by norm_num)

/-- C6: commit_and_push with an empty (after stripping) git status
porcelain output returns True and issues neither a commit nor a push. -/
theorem commit_and_push_noop (env : GitEnv) (msg : List Char)
    (h1 : env.configEmailOk = true) (h2 : env.configNameOk = true)
    (h3 : env.addOk = true) (hst : pyStrip env.statusOut = []) :
    (commit_and_push env msg).1 = true ∧
    (∀ m, GitCmd.commit m ∉ (commit_and_push env msg).2) ∧
    GitCmd.push ∉ (commit_and_push env msg).2 := by
  have heq : commit_and_push env msg =
      (true, [GitCmd.configEmail, GitCmd.configName, GitCmd.add, GitCmd.status]) := by
    simp [commit_and_push, h1, h2, h3, hst]
  rw [heq]
  refine ⟨rfl, fun m => ?_, ?_⟩ <;> simp

theorem commit_and_push_noop_witness :
    (commit_and_push ⟨true, true, true, true, true, "  ".data, true, true⟩
      "msg".data).1 = true ∧
    (∀ m, GitCmd.commit m ∉
      (commit_and_push ⟨true, true, true, true, true, "  ".data, true, true⟩
        "msg".data).2) ∧
    GitCmd.push ∉
      (commit_and_push ⟨true, true, true, true, true, "  ".data, true, true⟩
        "msg".data).2 :=
  commit_and_push_noop ⟨true, true, true, true, true, "  ".data, true, true⟩
    "msg".data rfl rfl rfl (by decide)

lemma roundHalfEven_ge_floor (q : ℚ) : ⌊q⌋ ≤ roundHalfEven q := by
  simp only [roundHalfEven]
  split_ifs <;> omega

lemma round2_pos {q : ℚ} (h : 1 ≤ q) : 0 < round2 q := by
  have h1 : (100 : ℚ) ≤ q * 100 := by linarith
  have h2 : (100 : ℤ) ≤ ⌊q * 100⌋ := Int.le_floor.mpr (by exact_mod_cast h1)
  have h3 := roundHalfEven_ge_floor (q * 100)
  have h4 : (100 : ℤ) ≤ roundHalfEven (q * 100) := le_trans h2 h3
  have h5 : (100 : ℚ) ≤ (roundHalfEven (q * 100) : ℚ) := by exact_mod_cast h4
  rw [round2]
  linarith

/-- C10: an unreadable size reads as -1, which is below the size limit,
so the file is not size-excluded and contributes no report entry; and
every entry the hierarchy step ever appends has positive size_mb, so
the report never contains a negative size. -/
theorem get_file_size_error_spec (root : List Char) (f g : FileInfo)
    (excl excl' : List Entry) (hf : f.size = none) :
    get_file_size f = -1 ∧
    (create_backup_hierarchy root f excl).2 = excl ∧
    (∀ e ∈ (create_backup_hierarchy root g excl').2, e ∈ excl' ∨ 0 < e.size_mb) := by
  have h1 : get_file_size f = -1 := by simp [get_file_size, hf]
  refine ⟨h1, ?_, ?_⟩
  · rw [create_backup_hierarchy]
    have hno : ¬ SIZE_LIMIT < get_file_size f := by
      rw [h1, SIZE_LIMIT]
      norm_num
    rw [if_neg hno]
    cases f.ctime with
    | none => rfl
    | some d => by_cases hm : f.mkdirOk = true <;> simp [hm]
  · intro e he
    rw [create_backup_hierarchy] at he
    by_cases hlt : SIZE_LIMIT < get_file_size g
    · rw [if_pos hlt] at he
      simp only [List.mem_append, List.mem_singleton] at he
      rcases he with he | he
      · exact Or.inl he
      · right
        rw [he]
        apply round2_pos
        rw [le_div_iff₀ (by norm_num : (0 : ℚ) < 1024 * 1024), one_mul]
        have hg : (1024 * 1024 : Int) ≤ get_file_size g := by
          rw [SIZE_LIMIT] at hlt
          omega
        exact_mod_cast hg
    · rw [if_neg hlt] at he
      cases hct : g.ctime with
      | none =>
          rw [hct] at he
          exact Or.inl he
      | some d =>
          rw [hct] at he
          by_cases hm : g.mkdirOk = true <;> simp [hm] at he <;> exact Or.inl he

theorem get_file_size_error_spec_witness :
    get_file_size ⟨"a/x.pdf".data, none, none, true, true⟩ = -1 ∧
    (create_backup_hierarchy "r".data
      ⟨"a/x.pdf".data, none, none, true, true⟩ []).2 = [] ∧
    (∀ e ∈ (create_backup_hierarchy "r".data
      ⟨"a/big.pdf".data, some 30000000, none, true, true⟩ []).2,
      e ∈ ([] : List Entry) ∨ 0 < e.size_mb) :=
  get_file_size_error_spec "r".data
    ⟨"a/x.pdf".data, none, none, true, true⟩
    ⟨"a/big.pdf".data, some 30000000, none, true, true⟩ [] [] rfl

/-- C2: a file at or under the size limit is routed to
root/YYYY/MM/Www/extension/basename, where the year and zero-padded
month come from the ctime date, the week segment is W plus the
two-digit ISO week of that date, and the extension segment is the
lowercased extension without its leading dot. -/
theorem create_backup_hierarchy_dest (root : List Char) (f : FileInfo)
    (excl : List Entry) (s : Nat) (d : Date) (hs : f.size = some s)
    (hlim : s ≤ 26214400) (hc : f.ctime = some d) (hm : f.mkdirOk = true) :
    (create_backup_hierarchy root f excl).1 =
      some (root ++ sep :: (padNum 4 d.year ++ sep :: (padNum 2 d.month ++
        sep :: (('W' :: padNum 2 (isoWeek d)) ++ sep ::
        (lstripDots (pyLower (splitextExt f.path)) ++
          sep :: basename f.path))))) := by
  have hgfs : get_file_size f = (s : Int) := by simp [get_file_size, hs]
  have hle : ¬ SIZE_LIMIT < get_file_size f := by
    rw [hgfs, SIZE_LIMIT]
    exact_mod_cast not_lt.mpr hlim
  rw [create_backup_hierarchy, if_neg hle, hc]
  simp [hm, pathJoin, get_week_number, get_file_extension, List.append_assoc]

theorem create_backup_hierarchy_dest_witness :
    (create_backup_hierarchy "backup_root".data
      ⟨"src/notes.md".data, some 10240, some ⟨2024, 1, 5⟩, true, true⟩ []).1 =
      some "backup_root/2024/01/W01/md/notes.md".data := by
  have h := create_backup_hierarchy_dest "backup_root".data
    ⟨"src/notes.md".data, some 10240, some ⟨2024, 1, 5⟩, true, true⟩ []
    10240 ⟨2024, 1, 5⟩ rfl (by norm_num) rfl rfl
  rw [h]
  decide

/-- C7 (amended): a missing or empty GITHUB_REPO_URL or SSH_KEY_PATH
makes upload_backup_to_github return False with an empty side-effect
trace; placeholder values are not detected by this function. -/
theorem upload_missing_config_aborts (env : UploadEnv)
    (file : Option (List (List Char))) (backup_path now : List Char)
    (h : pyFalsy (load_config file).url = true ∨
      pyFalsy (load_config file).ssh = true) :
    upload_backup_to_github env (load_config file) backup_path now =
      (false, []) := by
  by_cases hu : pyFalsy (load_config file).url = true
  · simp [upload_backup_to_github, hu]
  · have hss : pyFalsy (load_config file).ssh = true := h.resolve_left hu
    simp [upload_backup_to_github, hu, hss]

theorem upload_missing_config_aborts_witness :
    upload_backup_to_github
      ⟨true, true, false, true, ⟨true, true, true, true, true, [], true, true⟩⟩
      (load_config (some ["SSH_KEY_PATH=/k".data])) "b".data "d".data =
      (false, []) :=
  upload_missing_config_aborts
    ⟨true, true, false, true, ⟨true, true, true, true, true, [], true, true⟩⟩
    (some ["SSH_KEY_PATH=/k".data]) "b".data "d".data (Or.inl (by decide))

/-- C7 counterexample: with GITHUB_REPO_URL still the placeholder value
(it contains your-username, the repository's own placeholder test) and
an existing SSH key, upload_backup_to_github performs side effects
(among them the GIT_SSH_COMMAND environment mutation) before failing,
so it does not return False before any side effect. -/
theorem upload_placeholder_side_effects :
    pyContains (pyLower "git@github.com:your-username/repo.git".data)
      "your-username".data = true ∧
    (upload_backup_to_github
      ⟨true, true, false, true,
        ⟨true, true, true, true, true, "M x".data, true, false⟩⟩
      ⟨some "git@github.com:your-username/repo.git".data, some "/k/id".data,
        "Auto backup".data⟩
      "backups".data "2024-01-05".data).1 = false ∧
    (upload_backup_to_github
      ⟨true, true, false, true,
        ⟨true, true, true, true, true, "M x".data, true, false⟩⟩
      ⟨some "git@github.com:your-username/repo.git".data, some "/k/id".data,
        "Auto backup".data⟩
      "backups".data "2024-01-05".data).2 ≠ [] ∧
    ((upload_backup_to_github
      ⟨true, true, false, true,
        ⟨true, true, true, true, true, "M x".data, true, false⟩⟩
      ⟨some "git@github.com:your-username/repo.git".data, some "/k/id".data,
        "Auto backup".data⟩
      "backups".data "2024-01-05".data).2.any (fun e =>
        match e with
        | Effect.setSshEnv _ => true
        | _ => false)) = true := by
  refine ⟨by decide, ?_, ?_, ?_⟩ <;> decide

set_option maxRecDepth 8192

lemma digitChar_isDigit {m : Nat} (h : m < 10) : (Nat.digitChar m).isDigit = true := by
  interval_cases m <;> decide

lemma toDigitsCore_digits (fuel : Nat) : ∀ (n : Nat) (ds : List Char),
    (∀ c ∈ ds, c.isDigit = true) →
    ∀ c ∈ Nat.toDigitsCore 10 fuel n ds, c.isDigit = true := by
  induction fuel with
  | zero =>
      intro n ds hds c hc
      exact hds c hc
  | succ fuel ih =>
      intro n ds hds c hc
      have hd : (Nat.digitChar (n % 10)).isDigit = true :=
        digitChar_isDigit (Nat.mod_lt _ (by norm_num))
      have hds' : ∀ x ∈ Nat.digitChar (n % 10) :: ds, x.isDigit = true := by
        intro x hx
        rcases List.mem_cons.mp hx with rfl | hx
        · exact hd
        · exact hds x hx
      simp only [Nat.toDigitsCore] at hc
      by_cases h0 : n / 10 = 0
      · rw [if_pos h0] at hc
        exact hds' c hc
      · rw [if_neg h0] at hc
        exact ih (n / 10) _ hds' c hc

lemma repr_chars_isDigit (n : Nat) : ∀ c ∈ (Nat.repr n).data, c.isDigit = true := by
  intro c hc
  have hrepr : (Nat.repr n).data = Nat.toDigits 10 n := rfl
  rw [hrepr, Nat.toDigits] at hc
  exact toDigitsCore_digits (n + 1) n [] (by simp) c hc

lemma totalLine_not_entry (n : Nat) :
    isEntryLine ("Total excluded files: ".data ++ (Nat.repr n).data) = false := by
  by_contra h
  rw [Bool.not_eq_false] at h
  simp only [isEntryLine, pyContains] at h
  have hinf := of_decide_eq_true h
  have hF : 'F' ∈ "Total excluded files: ".data ++ (Nat.repr n).data :=
    hinf.subset (by decide)
  rcases List.mem_append.mp hF with h1 | h1
  · exact absurd h1 (by decide)
  · exact absurd (repr_chars_isDigit n 'F' h1) (by decide)

lemma entry_first_line_is_entry (idx : Nat) (file : List Char) :
    isEntryLine ((Nat.repr idx).data ++ ". File: ".data ++ file) = true := by
  simp only [isEntryLine, pyContains]
  apply decide_eq_true
  exact ⟨(Nat.repr idx).data, file, by simp [List.append_assoc]⟩

lemma countP_entryBlock (idx : Nat) (e : Entry)
    (he : isEntryLine ("   Size: ".data ++ renderQ e.size_mb ++ " MB".data) = false) :
    (entryBlock idx e).countP isEntryLine = 1 := by
  have h1 := entry_first_line_is_entry idx e.file
  have h3 : isEntryLine
      "   Would be located: Backup folder structure would apply".data = false := by decide
  have h4 : isEntryLine [] = false := by decide
  simp only [entryBlock, List.countP_cons, List.countP_nil]
  rw [h1, he, h3, h4]
  norm_num

lemma countP_numberedBlocks (idx : Nat) (es : List Entry)
    (hes : ∀ e ∈ es,
      isEntryLine ("   Size: ".data ++ renderQ e.size_mb ++ " MB".data) = false) :
    (numberedBlocks idx es).countP isEntryLine = es.length := by
  induction es generalizing idx with
  | nil => simp [numberedBlocks]
  | cons e es ih =>
      rw [numberedBlocks, List.countP_append,
        countP_entryBlock idx e (hes e (by simp)),
        ih (idx + 1) (fun x hx => hes x (by simp [hx]))]
      simp [Nat.add_comm]

lemma numberedBlocks_mem (idx : Nat) (es : List Entry) (i : Nat) (h : i < es.length) :
    ((Nat.repr (idx + i)).data ++ ". File: ".data ++ (es.get ⟨i, h⟩).file)
      ∈ numberedBlocks idx es := by
  induction es generalizing idx i with
  | nil => simp at h
  | cons e es ih =>
      cases i with
      | zero => simp [numberedBlocks, entryBlock]
      | succ i =>
          have hi : i < es.length := by simpa using h
          have hrec := ih (idx + 1) i hi
          rw [numberedBlocks]
          refine List.mem_append_right _ ?_
          have heq : idx + (i + 1) = (idx + 1) + i := by omega
          rw [heq]
          exact hrec

/-- C5: the exclusion log written for zero entries contains the literal
no-files-excluded line; for N > 0 entries it contains the total-count
line and exactly N numbered per-entry blocks, the i-th of which names
entry i's path after its one-based index. -/
theorem log_excluded_files_spec (es : List Entry) (ts : List Char)
    (hts : isEntryLine ("BACKUP EXCLUDED FILES LOG - ".data ++ ts) = false)
    (hes : ∀ e ∈ es,
      isEntryLine ("   Size: ".data ++ renderQ e.size_mb ++ " MB".data) = false) :
    (es = [] → "No files were excluded.".data ∈ log_excluded_files es ts) ∧
    (es ≠ [] →
      ("Total excluded files: ".data ++ (Nat.repr es.length).data) ∈
        log_excluded_files es ts ∧
      (log_excluded_files es ts).countP isEntryLine = es.length ∧
      ∀ i (h : i < es.length),
        ((Nat.repr (i + 1)).data ++ ". File: ".data ++ (es.get ⟨i, h⟩).file) ∈
          log_excluded_files es ts) := by
  constructor
  · rintro rfl
    simp [log_excluded_files]
  · intro hne
    have hisE : ¬ es.isEmpty = true := by
      simpa [List.isEmpty_iff] using hne
    refine ⟨?_, ?_, ?_⟩
    · rw [log_excluded_files, if_neg hisE]
      simp
    · rw [log_excluded_files, if_neg hisE]
      rw [List.countP_append, List.countP_append]
      have hA : List.countP isEntryLine
          [eq80, "BACKUP EXCLUDED FILES LOG - ".data ++ ts, eq80, [],
           "The following files were EXCLUDED from backup due to exceeding 25MB size limit:".data,
           []] = 0 := by
        have he0 : isEntryLine eq80 = false := by decide
        have he1 : isEntryLine [] = false := by decide
        have he2 : isEntryLine
            "The following files were EXCLUDED from backup due to exceeding 25MB size limit:".data
            = false := by decide
        simp only [List.countP_cons, List.countP_nil]
        rw [he0, he1, he2, hts]
        norm_num
      have hC : List.countP isEntryLine
          [eq80,
           "To fix this, consider using git-lfs (Large File Storage) or exclude these files in config.".data]
          = 0 := by decide
      have hM : List.countP isEntryLine
          (("Total excluded files: ".data ++ (Nat.repr es.length).data) :: [] ::
            numberedBlocks 1 es) = es.length := by
        simp only [List.countP_cons]
        rw [totalLine_not_entry, countP_numberedBlocks 1 es hes]
        have he1 : isEntryLine [] = false := by decide
        rw [he1]
        norm_num
      rw [hA, hC, hM]
      omega
    · intro i h
      rw [log_excluded_files, if_neg hisE]
      have hmem := numberedBlocks_mem 1 es i h
      have heq : 1 + i = i + 1 := by omega
      rw [heq] at hmem
      refine List.mem_append_left _ (List.mem_append_right _ ?_)
      exact List.mem_cons_of_mem _ (List.mem_cons_of_mem _ hmem)

theorem log_excluded_files_spec_witness :
    ("No files were excluded.".data ∈
      log_excluded_files [] "2024-01-05 10:00:00".data) ∧
    (("Total excluded files: ".data ++ (Nat.repr 2).data) ∈
      log_excluded_files
        [⟨"a/big.pdf".data, 29, placementNote⟩,
         ⟨"b/x.doc".data, 30, placementNote⟩] "2024-01-05 10:00:00".data ∧
      (log_excluded_files
        [⟨"a/big.pdf".data, 29, placementNote⟩,
         ⟨"b/x.doc".data, 30, placementNote⟩]
        "2024-01-05 10:00:00".data).countP isEntryLine = 2) := by
  refine ⟨?_, ?_, ?_⟩
  · exact (log_excluded_files_spec [] "2024-01-05 10:00:00".data (by decide)
      (by intro e he; cases he)).1 rfl
  · exact ((log_excluded_files_spec
      [⟨"a/big.pdf".data, 29, placementNote⟩,
       ⟨"b/x.doc".data, 30, placementNote⟩] "2024-01-05 10:00:00".data
      (by decide) (by decide)).2 (by decide)).1
  · exact ((log_excluded_files_spec
      [⟨"a/big.pdf".data, 29, placementNote⟩,
       ⟨"b/x.doc".data, 30, placementNote⟩] "2024-01-05 10:00:00".data
      (by decide) (by decide)).2 (by decide)).2.1

theorem backup_loop_invariant_witness :
    (((backupLoop "r".data
        [⟨"s/a.md".data, some 10, some ⟨2024, 1, 5⟩, true, true⟩,
         ⟨"s/b.pdf".data, some 30000000, some ⟨2024, 1, 5⟩, true, true⟩]).1.countP
        (fun c => decide (c.1 = "s/a.md".data)) = 1 ∧
      (backupLoop "r".data
        [⟨"s/a.md".data, some 10, some ⟨2024, 1, 5⟩, true, true⟩,
         ⟨"s/b.pdf".data, some 30000000, some ⟨2024, 1, 5⟩, true, true⟩]).2.countP
        (fun e => decide (e.file = "s/a.md".data)) = 0) ∨
     ((backupLoop "r".data
        [⟨"s/a.md".data, some 10, some ⟨2024, 1, 5⟩, true, true⟩,
         ⟨"s/b.pdf".data, some 30000000, some ⟨2024, 1, 5⟩, true, true⟩]).1.countP
        (fun c => decide (c.1 = "s/a.md".data)) = 0 ∧
      (backupLoop "r".data
        [⟨"s/a.md".data, some 10, some ⟨2024, 1, 5⟩, true, true⟩,
         ⟨"s/b.pdf".data, some 30000000, some ⟨2024, 1, 5⟩, true, true⟩]).2.countP
        (fun e => decide (e.file = "s/a.md".data)) = 1)) :=
  backup_loop_invariant "r".data
    [⟨"s/a.md".data, some 10, some ⟨2024, 1, 5⟩, true, true⟩,
     ⟨"s/b.pdf".data, some 30000000, some ⟨2024, 1, 5⟩, true, true⟩]
    (by decide)
    (by
      intro g hg
      rcases List.mem_cons.mp hg with rfl | hg
      · exact ⟨rfl, rfl, rfl, rfl⟩
      · rcases List.mem_cons.mp hg with rfl | hg
        · exact ⟨rfl, rfl, rfl, rfl⟩
        · cases hg)
    ⟨"s/a.md".data, some 10, some ⟨2024, 1, 5⟩, true, true⟩ (by decide)

lemma FSTree.strongInd (motive : FSTree → Prop)
    (node : ∀ files subdirs, (∀ st ∈ subdirs, motive st.2) →
      motive (FSTree.node files subdirs)) :
    ∀ t, motive t := by
  suffices H : ∀ n (t : FSTree), sizeOf t ≤ n → motive t by
    intro t
    exact H (sizeOf t) t le_rfl
  intro n
  induction n with
  | zero =>
      intro t ht
      cases t with
      | node files subdirs =>
          rw [FSTree.node.sizeOf_spec] at ht
          omega
  | succ n ih =>
      intro t ht
      cases t with
      | node files subdirs =>
          apply node
          intro st hst
          apply ih
          have h1 : sizeOf st < sizeOf subdirs := List.sizeOf_lt_of_mem hst
          have h2 : sizeOf st.2 < sizeOf st := by
            obtain ⟨a, b⟩ := st
            show sizeOf b < sizeOf (a, b)
            rw [Prod.mk.sizeOf_spec]
            omega
          rw [FSTree.node.sizeOf_spec] at ht
          omega

lemma allFilePaths_shape : ∀ (t : FSTree) (root p : List Char),
    p ∈ allFilePaths root t → ∃ s, p = root ++ sep :: s := by
  refine FSTree.strongInd _ ?_
  intro files subdirs ih root p hp
  rw [allFilePaths] at hp
  rcases List.mem_append.mp hp with h | h
  · rcases List.mem_map.mp h with ⟨name, hname, rfl⟩
    exact ⟨name, rfl⟩
  · rcases List.mem_flatten.mp h with ⟨l, hl, hpl⟩
    rcases List.mem_map.mp hl with ⟨st, hst, rfl⟩
    obtain ⟨s, hs⟩ := ih st.1 st.2 (pathJoin root st.1.1) p hpl
    refine ⟨st.1.1 ++ sep :: s, ?_⟩
    rw [hs]
    simp [pathJoin]

lemma is_path_excluded_append (r x : List Char) (excl : List (List Char))
    (h : is_path_excluded r excl = true) :
    is_path_excluded (r ++ x) excl = true := by
  simp only [is_path_excluded, List.any_eq_true] at h ⊢
  obtain ⟨pat, hpat, hinf⟩ := h
  refine ⟨pat, hpat, ?_⟩
  simp only [pyContains, decide_eq_true_eq] at hinf ⊢
  rw [pyLower, List.map_append]
  exact hinf.trans (List.prefix_append _ _).isInfix

/-- C4: find_all_files yields exactly the files of the tree whose
lowercased path contains no exclusion substring and whose extension is
in the supported set; pruned subtrees contribute nothing because every
path below an excluded directory contains the excluded substring too. -/
theorem find_all_files_spec (t : FSTree) (excl : List (List Char))
    (root p : List Char) :
    p ∈ find_all_files excl root t ↔
      p ∈ allFilePaths root t ∧ is_path_excluded p excl = false ∧
        is_supported_file p = true := by
  induction t using FSTree.strongInd generalizing root p with
  | node files subdirs ih =>
      constructor
      · intro hp
        rw [find_all_files] at hp
        rcases List.mem_append.mp hp with h | h
        · rcases List.mem_filter.mp h with ⟨hmem, hcond⟩
          rcases List.mem_map.mp hmem with ⟨name, hname, hpj⟩
          simp only [Bool.and_eq_true, Bool.not_eq_true'] at hcond
          refine ⟨?_, hcond.1, hcond.2⟩
          rw [allFilePaths]
          refine List.mem_append_left _ ?_
          rw [← hpj]
          exact List.mem_map_of_mem _ hname
        · rcases List.mem_flatten.mp h with ⟨l, hl, hpl⟩
          rcases List.mem_map.mp hl with ⟨st, hst, rfl⟩
          by_cases hex : is_path_excluded (pathJoin root st.1.1) excl = true
          · rw [if_pos hex] at hpl
            cases hpl
          · rw [if_neg hex] at hpl
            obtain ⟨hmem, hexcl, hsup⟩ :=
              (ih st.1 st.2 (pathJoin root st.1.1) p).mp hpl
            refine ⟨?_, hexcl, hsup⟩
            rw [allFilePaths]
            refine List.mem_append_right _ (List.mem_flatten.mpr ⟨_, ?_, hmem⟩)
            exact List.mem_map.mpr ⟨st, List.mem_attach _ _, rfl⟩
      · rintro ⟨hmem, hexcl, hsup⟩
        rw [allFilePaths] at hmem
        rw [find_all_files]
        rcases List.mem_append.mp hmem with h | h
        · rcases List.mem_map.mp h with ⟨name, hname, hpj⟩
          refine List.mem_append_left _ (List.mem_filter.mpr ⟨?_, ?_⟩)
          · rw [← hpj]
            exact List.mem_map_of_mem _ hname
          · simp [hexcl, hsup]
        · rcases List.mem_flatten.mp h with ⟨l, hl, hpl⟩
          rcases List.mem_map.mp hl with ⟨st, hst, rfl⟩
          have hnotex : ¬ is_path_excluded (pathJoin root st.1.1) excl = true := by
            intro hc
            obtain ⟨s, hs⟩ := allFilePaths_shape st.1.2 (pathJoin root st.1.1) p hpl
            have hpe : is_path_excluded p excl = true := by
              rw [hs]
              exact is_path_excluded_append _ _ _ hc
            rw [hpe] at hexcl
            cases hexcl
          refine List.mem_append_right _ (List.mem_flatten.mpr
            ⟨_, List.mem_map.mpr ⟨st, List.mem_attach _ _, rfl⟩, ?_⟩)
          rw [if_neg hnotex]
          exact (ih st.1 st.2 (pathJoin root st.1.1) p).mpr ⟨hpl, hexcl, hsup⟩

end Backup
